import Mathlib

/-!
Verification of the palette-indexed image codec (`src/main.rs`, `src/utils.rs`).

The Rust core is shallowly embedded below.  Machine integers are modelled as
`Nat` with explicit `% 2^w` where the source can wrap in release mode
(`as u8` / `as u16` casts, `u32` sums); pixels are `Rgb` records of `Nat`
channel values (the source uses `u8`, so reachable values are `< 256`).
Operations that can panic in Rust (slice indexing out of range, division by
zero, `expect`/`unwrap`, `ImageBuffer::from_raw` failure) are modelled as
`Option` with `none` for the panic.  I/O-only observability (the progress
bar) is omitted; the external collaborators that are out of scope for the
repository (the dithering routine of the `image` crate, the `zstd` codec,
the thread scheduler) enter as explicit parameters, with spec-modelled
concrete instances where a counterexample or witness needs one.
-/

/-- A pixel colour: three 8-bit channels (source type `image::Rgb<u8>`). -/
@[ext] structure Rgb where
  r : Nat
  g : Nat
  b : Nat
deriving DecidableEq, Repr

/-- Squared Euclidean distance in (R,G,B) space, the key computed inside
`Palette::index_of` (`utils.rs` lines 55-59), in `i32` arithmetic. -/
def sqDist (c p : Rgb) : Int :=
  let dr : Int := (c.r : Int) - (p.r : Int)
  let dg : Int := (c.g : Int) - (p.g : Int)
  let db : Int := (c.b : Int) - (p.b : Int)
  dr * dr + dg * dg + db * db

/-- The fold performed by Rust `Iterator::min_by_key`: the accumulator is
replaced only when the new key is strictly smaller, so the first of several
equal minima is kept. -/
def runMin (f : Nat × Rgb → Int) (acc : Nat × Rgb) (xs : List (Nat × Rgb)) : Nat × Rgb :=
  xs.foldl (fun a y => if f y < f a then y else a) acc

/-- `min_by_key` over an enumerated iterator (`utils.rs` lines 52-61):
`none` on an empty list, otherwise the first element attaining the minimum
key. -/
def minByKeyFirst (f : Nat × Rgb → Int) : List (Nat × Rgb) → Option (Nat × Rgb)
  | [] => none
  | x :: xs => some (runMin f x xs)

/-- `Palette::index_of` (`utils.rs` lines 51-63): index of the first palette
entry minimising the squared distance to `color`; `unwrap_or(0)` yields `0`
for an empty palette. -/
def index_of (colors : List Rgb) (color : Rgb) : Nat :=
  match minByKeyFirst (fun ic => sqDist ic.2 color) colors.enum with
  | some ic => ic.1
  | none => 0

/-- `Palette::map_color` (`utils.rs` lines 65-69): replace a colour by the
palette entry `index_of` selects.  The source indexes the palette vector,
which panics on an empty palette; the default is never used for a nonempty
palette. -/
def map_color (colors : List Rgb) (c : Rgb) : Rgb :=
  colors.getD (index_of colors c) c

/-- The pixel comparison of the encode worker (`main.rs` line 48):
component-wise equality of the three channels. -/
def pixEq (c p : Rgb) : Bool :=
  c.r == p.r && c.g == p.g && c.b == p.b

/-- Rust `Iterator::position`: index of the first element satisfying the
predicate. -/
def position (pred : Rgb → Bool) : List Rgb → Option Nat
  | [] => none
  | c :: cs => if pred c then some 0 else (position pred cs).map (· + 1)

/-- `process_encode` (`main.rs` lines 34-60, cipher path excluded): each
pixel of the chunk becomes the index of the first palette entry exactly
equal to it, `0` when there is none (`position(..).unwrap_or(0)`), truncated
by the `as u8` cast. -/
def process_encode (palette : List Rgb) (chunk : List Rgb) : List Nat :=
  chunk.map (fun px => ((position (fun c => pixEq c px) palette).getD 0) % 256)

/-- The three channel bytes of a pixel, as `flat_map(|rgb| rgb.0)` emits
them (`main.rs` line 157). -/
def toBytes (c : Rgb) : List Nat :=
  [c.r, c.g, c.b]

/-- One step of the decode worker loop (`main.rs` line 78):
`palette.get(byte).unwrap_or(&palette[0])`.  The fallback `&palette[0]` is
evaluated eagerly, so an empty palette panics (`none`) as soon as one byte
is processed. -/
def lookupPixel (palette : List Rgb) (b : Nat) : Option (List Nat) :=
  match palette with
  | [] => none
  | p0 :: _ => some (toBytes (palette.getD b p0))

/-- Sequential `Option` traversal: `none` as soon as one element fails,
modelling a panic inside a loop. -/
def mapOpt {α β : Type} (f : α → Option β) : List α → Option (List β)
  | [] => some []
  | x :: xs =>
    match f x, mapOpt f xs with
    | some y, some ys => some (y :: ys)
    | _, _ => none

/-- `process_decode` (`main.rs` lines 62-85, cipher path excluded): each
index byte expands to the three channel bytes of the palette entry it
selects, index `0` as fallback for out-of-range bytes. -/
def process_decode (palette : List Rgb) (chunk : List Nat) : Option (List Nat) :=
  (mapOpt (lookupPixel palette) chunk).map List.flatten

/-- Channel accessor `p[ch]` used by the bucket code. -/
def channelOf (p : Rgb) (ch : Nat) : Nat :=
  if ch = 0 then p.r else if ch = 1 then p.g else p.b

/-- `max - min` of a channel over a bucket (`Bucket::largest_range_channel`,
`utils.rs` lines 81-106); the `minmax().unwrap()` panic on an empty bucket
is unreachable because `split` is only called on buckets of length `≥ 2`. -/
def channelRange (vals : List Nat) : Nat :=
  match vals with
  | [] => 0
  | v :: vs => (vs.foldl Nat.max v) - (vs.foldl Nat.min v)

/-- `Bucket::largest_range_channel` (`utils.rs` lines 81-115): channel with
the largest `max - min` range, ties resolved in the order R, G, B. -/
def largest_range_channel (ps : List Rgb) : Nat :=
  let range_r := channelRange (ps.map (·.r))
  let range_g := channelRange (ps.map (·.g))
  let range_b := channelRange (ps.map (·.b))
  if range_r ≥ range_g ∧ range_r ≥ range_b then 0
  else if range_g ≥ range_r ∧ range_g ≥ range_b then 1
  else 2

/-- Insertion of one element into a list sorted by `key`.  The source uses
`sort_unstable_by_key`, whose order among equal keys is unspecified; this
model fixes the stable order, which coincides with the source whenever the
keys involved are distinct (as in every concrete input used below). -/
def insertByKey (key : Rgb → Nat) (x : Rgb) : List Rgb → List Rgb
  | [] => [x]
  | y :: ys => if key x ≤ key y then x :: y :: ys else y :: insertByKey key x ys

/-- Sorting by key, modelling `sort_unstable_by_key` (`utils.rs` line 120). -/
def sortByKey (key : Rgb → Nat) : List Rgb → List Rgb
  | [] => []
  | x :: xs => insertByKey key x (sortByKey key xs)

/-- `Bucket::split` (`utils.rs` lines 117-127): sort by the largest-range
channel and cut at the midpoint `len / 2`. -/
def bucketSplit (ps : List Rgb) : List Rgb × List Rgb :=
  let ch := largest_range_channel ps
  let sorted := sortByKey (fun p => channelOf p ch) ps
  let mid := sorted.length / 2
  (sorted.take mid, sorted.drop mid)

/-- `Bucket::average_color` (`utils.rs` lines 129-146): per-channel mean in
`u32` arithmetic (release-mode wrap modelled by `% 2^32`) with truncating
division and an `as u8` cast; the division by `len = 0` on an empty bucket
is a Rust panic, hence `none`. -/
def average_color (ps : List Rgb) : Option Rgb :=
  match ps with
  | [] => none
  | _ :: _ =>
    let rs := ps.foldl (fun a p => (a + p.r) % 4294967296) 0
    let gs := ps.foldl (fun a p => (a + p.g) % 4294967296) 0
    let bs := ps.foldl (fun a p => (a + p.b) % 4294967296) 0
    some ⟨rs / ps.length % 256, gs / ps.length % 256, bs / ps.length % 256⟩

/-- `Bucket::variance` (`utils.rs` lines 148-165): mean squared channel
deviation from the bucket's own average, `0` for an empty bucket; the `u32`
sum wraps in release mode (`% 2^32`). -/
def variance (ps : List Rgb) : Nat :=
  if ps.length = 0 then 0
  else
    match average_color ps with
    | none => 0
    | some avg =>
      (ps.foldl (fun acc p => (acc + (sqDist p avg).toNat) % 4294967296) 0) / ps.length

/-- The fold performed by Rust `Iterator::max_by_key`: the accumulator is
kept only while its key is strictly greater, so the last of several equal
maxima is returned. -/
def maxByLast (f : Nat × List Rgb → Nat) : List (Nat × List Rgb) → Option (Nat × List Rgb)
  | [] => none
  | x :: xs => some (xs.foldl (fun acc y => if f acc > f y then acc else y) x)

/-- Selection of the maximum-variance bucket (`utils.rs` lines 213-217):
`max_by_key` over the enumerated bucket list. -/
def selectMaxVariance (buckets : List (List Rgb)) : Option Nat :=
  (maxByLast (fun ib => variance ib.2) buckets.enum).map (·.1)

/-- `Vec::swap_remove(idx)`: replace position `idx` with the last element
and pop the last element. -/
def swapRemoveAt (l : List (List Rgb)) (idx : Nat) : List (List Rgb) :=
  (l.set idx (l.getLastD [])).dropLast

/-- The splitting loop of `gen_palette` (`utils.rs` lines 212-230).  The
loop runs while `buckets.len() < n`; each non-breaking iteration grows the
bucket count by one, so fuel `n` is enough for the loop to reach its exit
condition.  A selected bucket of `≤ 1` pixels is pushed back and the loop
breaks. -/
def genLoop (n : Nat) : Nat → List (List Rgb) → List (List Rgb)
  | 0, buckets => buckets
  | fuel + 1, buckets =>
    if buckets.length < n then
      match selectMaxVariance buckets with
      | none => buckets
      | some idx =>
        let bucket := buckets.getD idx []
        let rest := swapRemoveAt buckets idx
        if bucket.length ≤ 1 then rest ++ [bucket]
        else
          let split := bucketSplit bucket
          genLoop n fuel (rest ++ [split.1, split.2])
    else buckets

/-- `gen_palette` (`utils.rs` lines 210-233): median-cut splitting followed
by one average colour per bucket; `none` models the division-by-zero panic
of `average_color` on an empty pixel slice. -/
def gen_palette (pixels : List Rgb) (n : Nat) : Option (List Rgb) :=
  mapOpt average_color (genLoop n n [pixels])

/-- `pack_dimensions` (`utils.rs` lines 176-184): `(width << 12) | height`
as a 24-bit big-endian byte triple.  The inputs are `u16` values, so the
`u32` shift and or never wrap. -/
def pack_dimensions (width height : Nat) : List Nat :=
  let combined := (width <<< 12) ||| height
  [(combined >>> 16) &&& 255, (combined >>> 8) &&& 255, combined &&& 255]

/-- `unpack_dimensions` (`utils.rs` lines 186-193): rebuild the 24-bit
value from the first three bytes and mask out the two 12-bit fields; the
`as u16` casts are the `% 65536` reductions. -/
def unpack_dimensions (bytes : List Nat) : Nat × Nat :=
  let combined := (bytes.getD 0 0 <<< 16) ||| (bytes.getD 1 0 <<< 8) ||| bytes.getD 2 0
  (((combined >>> 12) % 65536) &&& 4095, (combined &&& 4095) % 65536)

/-- `decode_palette` (`utils.rs` lines 235-242): read `len / 3` consecutive
disjoint RGB triples (the source's indexed loop reads bytes
`3i, 3i+1, 3i+2` for `i < len / 3`, i.e. exactly the consecutive triples;
1-2 trailing bytes are ignored). -/
def decode_palette : List Nat → List Rgb
  | r :: g :: b :: rest => ⟨r, g, b⟩ :: decode_palette rest
  | _ => []

/-- `get_info` (`utils.rs` lines 259-268) without the file read and string
formatting: the triple `(width+2, height+2, bytes[3]+2)` printed by the
`i` mode; indexing a container shorter than 4 bytes panics (`none`). -/
def get_info (bytes : List Nat) : Option (Nat × Nat × Nat) :=
  if 4 ≤ bytes.length then
    let wh := unpack_dimensions (bytes.take 3)
    some (wh.1 + 2, wh.2 + 2, bytes.getD 3 0 + 2)
  else none

/-- `usize::div_ceil` as the source uses it (`main.rs` lines 133 and 187);
the caller guards against a zero divisor, which panics in Rust. -/
def rust_div_ceil (a b : Nat) : Nat :=
  a / b + (if a % b = 0 then 0 else 1)

/-- The chunk-construction loop (`main.rs` lines 137-151 and 190-205):
worker `i` receives `data[i*bpt .. min((i+1)*bpt, len)]`.  A start index
beyond `len` makes the Rust range slice panic, modelled by `none`. -/
def slicesFrom {α : Type} (data : List α) (bpt : Nat) : Nat → Nat → Option (List (List α))
  | _, 0 => some []
  | i, r + 1 =>
    let s := i * bpt
    let e := min ((i + 1) * bpt) data.length
    if s ≤ data.length then
      (slicesFrom data bpt (i + 1) r).map (fun rest => ((data.drop s).take (e - s)) :: rest)
    else none

/-- Partitioning of the input among `cpus` workers: chunk size
`div_ceil(len, cpus)` (division by a zero worker count panics, `none`),
then one contiguous slice per worker. -/
def splitChunks {α : Type} (cpus : Nat) (data : List α) : Option (List (List α)) :=
  if cpus = 0 then none
  else slicesFrom data (rust_div_ceil data.length cpus) 0 cpus

/-- The compression collaborator interface (spec section 4.5): a whole
container transform applied on encode only when it shrinks the bytes, and
its inverse applied on decode. -/
structure Codec where
  compress : List Nat → List Nat
  decompress : List Nat → Option (List Nat)

/-- Modelled from the spec: the external `zstd` codec (`zstd::encode_all` /
`zstd::decode_all` in `main.rs` lines 164 and 180 are library calls outside
this repository).  Every zstd frame begins with the fixed 4-byte magic
number `28 B5 2F FD` and decoding data that does not is an error; the model
realises this contract by prefixing the magic on compression and rejecting
any input that does not start with it. -/
def zstd_magic : List Nat := [40, 181, 47, 253]

/-- Modelled from the spec: concrete codec instance with the zstd framing
contract (magic-prefixed compression, decompression fails on input not
starting with the magic). -/
def zstdModel : Codec where
  compress := fun bs => zstd_magic ++ bs
  decompress := fun bs => if bs.take 4 = zstd_magic then some (bs.drop 4) else none

/-- Modelled from the spec: the dithering routine is supplied by the
`image` crate (`imageops::dither`, `main.rs` line 124), outside this
repository.  The spec fixes only its colour-selection policy (the
nearest-colour mapper) and that it rewrites the buffer in place; theorems
about encode quantify over the dither function, and this concrete instance
(pixel-wise remapping through `map_color`, zero diffusion) is used for
witnesses and counterexamples. -/
def ditherModel (palette : List Rgb) (pixels : List Rgb) : List Rgb :=
  pixels.map (map_color palette)

/-- `do_encode` (`main.rs` lines 107-162) before the compression step:
dimension validation (`exit(1)` modelled by `none`), palette generation,
dithering, parallel indexing, and container assembly
`dims ++ paletteSize-2 ++ palette bytes ++ index stream`.  The
`(palette_size - 2) as u8` cast is the `% 256`; the `width as u16 - 2`
casts cannot wrap because the guards bound `width, height ≤ 4097`. -/
def encode_core (cpus : Nat) (dither : List Rgb → List Rgb → List Rgb)
    (width height : Nat) (pixels : List Rgb) (palette_size : Nat) : Option (List Nat) :=
  if 2 ≤ width ∧ width ≤ 4097 then
    if 2 ≤ height ∧ height ≤ 4097 then
      match gen_palette pixels palette_size with
      | none => none
      | some palette =>
        let dithered := dither palette pixels
        match splitChunks cpus dithered with
        | none => none
        | some chunks =>
          some (pack_dimensions (width - 2) (height - 2) ++
            ((palette_size - 2) % 256) ::
              ((palette.map toBytes).flatten ++ (chunks.map (process_encode palette)).flatten))
    else none
  else none

/-- `do_encode` (`main.rs` lines 107-172, cipher path excluded): the core
container, then the compression transform kept only when it is strictly
smaller (`main.rs` lines 163-170). -/
def do_encode (cpus : Nat) (dither : List Rgb → List Rgb → List Rgb) (codec : Codec)
    (width height : Nat) (pixels : List Rgb) (palette_size : Nat) (compress : Bool) :
    Option (List Nat) :=
  (encode_core cpus dither width height pixels palette_size).map (fun out =>
    if compress then
      let compressed := codec.compress out
      if compressed.length < out.length then compressed else out
    else out)

/-- The palette-size precondition checked by `main` (`main.rs` lines
263-267) before `do_encode` is called. -/
def encode_cli (cpus : Nat) (dither : List Rgb → List Rgb → List Rgb) (codec : Codec)
    (width height : Nat) (pixels : List Rgb) (palette_size : Nat) (compress : Bool) :
    Option (List Nat) :=
  if 2 ≤ palette_size ∧ palette_size ≤ 257 then
    do_encode cpus dither codec width height pixels palette_size compress
  else none

/-- `do_decode` (`main.rs` lines 174-216, cipher path excluded): optional
decompression (`expect` panic on failure), header parse (`bytes[3]` and the
palette slice panic on short input), parallel palette lookup, and the final
`ImageBuffer::from_raw` — an external `image`-crate constructor, modelled
from the spec as requiring at least `width*height` pixels of data
(`expect` panic otherwise). -/
def do_decode (cpus : Nat) (codec : Codec) (bytes0 : List Nat) (compress : Bool) :
    Option (Nat × Nat × List Nat) :=
  match (if compress then codec.decompress bytes0 else some bytes0) with
  | none => none
  | some bytes =>
    match bytes[3]? with
    | none => none
    | some b3 =>
      let palette_size := b3 + 2
      if palette_size * 3 + 4 ≤ bytes.length then
        let palette := decode_palette ((bytes.drop 4).take (palette_size * 3))
        let data := bytes.drop (4 + palette.length * 3)
        match splitChunks cpus data with
        | none => none
        | some chunks =>
          match mapOpt (process_decode palette) chunks with
          | none => none
          | some results =>
            let wh := unpack_dimensions (bytes.take 3)
            let result := results.flatten
            if (wh.1 + 2) * (wh.2 + 2) * 3 ≤ result.length then
              some (wh.1 + 2, wh.2 + 2, result)
            else none
      else none

/-! Concrete data shared by witnesses and counterexamples. -/

/-- A 2-by-2 test image of four pairwise distinct greys. -/
def pix4 : List Rgb := [⟨0, 0, 0⟩, ⟨10, 10, 10⟩, ⟨20, 20, 20⟩, ⟨250, 250, 250⟩]

/-- The container `do_encode` produces for `pix4` with requested palette
size 5: the quantizer stops early at 4 palette entries, yet byte 3 claims 5. -/
def c20 : List Nat := [0, 0, 0, 3, 250, 250, 250, 20, 20, 20, 0, 0, 0, 10, 10, 10, 2, 3, 1, 0]

/-- The container `do_encode` produces for `pix4` with palette size 2. -/
def c14 : List Nat := [0, 0, 0, 0, 5, 5, 5, 135, 135, 135, 0, 0, 0, 1]

/-- A two-entry palette used in witnesses. -/
def pal2 : List Rgb := [⟨0, 0, 0⟩, ⟨10, 10, 10⟩]

/-! Bit-level facts about the packed dimension field. -/

lemma pack_dimensions_eq (w h : Nat) (hw : w < 4096) (hh : h < 4096) :
    pack_dimensions w h =
      [(w * 4096 + h) / 65536, (w * 4096 + h) / 256 % 256, (w * 4096 + h) % 256] := by
  have hh12 : h < 2 ^ 12 := by norm_num; omega
  have hC : (w <<< 12) ||| h = w * 4096 + h := by
    rw [Nat.shiftLeft_eq, Nat.mul_comm, ← Nat.mul_add_lt_is_or hh12 w]
  have h255 : (255 : Nat) = 2 ^ 8 - 1 := by norm_num
  simp only [pack_dimensions, hC]
  rw [Nat.shiftRight_eq_div_pow, Nat.shiftRight_eq_div_pow, h255,
    Nat.and_pow_two_sub_one_eq_mod, Nat.and_pow_two_sub_one_eq_mod,
    Nat.and_pow_two_sub_one_eq_mod]
  norm_num
  omega

lemma pack_dimensions_bytes_lt (w h : Nat) (hw : w < 4096) (hh : h < 4096) :
    ∀ b ∈ pack_dimensions w h, b < 256 := by
  rw [pack_dimensions_eq w h hw hh]
  intro b hb
  simp only [List.mem_cons, List.not_mem_nil, or_false] at hb
  rcases hb with rfl | rfl | rfl <;> omega

lemma unpack_dimensions_pack (w h : Nat) (hw : w < 4096) (hh : h < 4096) :
    unpack_dimensions (pack_dimensions w h) = (w, h) := by
  rw [pack_dimensions_eq w h hw hh]
  have hb0 : (w * 4096 + h) / 65536 < 256 := by omega
  have hb1 : (w * 4096 + h) / 256 % 256 < 256 := by omega
  have hb2 : (w * 4096 + h) % 256 < 256 := by omega
  have h1 : ((w * 4096 + h) / 65536) <<< 16 ||| ((w * 4096 + h) / 256 % 256) <<< 8 =
      (w * 4096 + h) / 65536 * 65536 + (w * 4096 + h) / 256 % 256 * 256 := by
    rw [Nat.shiftLeft_eq, Nat.shiftLeft_eq, Nat.mul_comm ((w * 4096 + h) / 65536),
      ← Nat.mul_add_lt_is_or (by norm_num; omega : (w * 4096 + h) / 256 % 256 * 2 ^ 8 < 2 ^ 16)]
    norm_num
  have h2 : ((w * 4096 + h) / 65536 * 65536 + (w * 4096 + h) / 256 % 256 * 256) |||
      ((w * 4096 + h) % 256) =
      (w * 4096 + h) / 65536 * 65536 + (w * 4096 + h) / 256 % 256 * 256 +
        (w * 4096 + h) % 256 := by
    have hrw : (w * 4096 + h) / 65536 * 65536 + (w * 4096 + h) / 256 % 256 * 256 =
        2 ^ 8 * ((w * 4096 + h) / 65536 * 256 + (w * 4096 + h) / 256 % 256) := by ring
    rw [hrw, ← Nat.mul_add_lt_is_or (by omega : (w * 4096 + h) % 256 < 2 ^ 8)]
  have hC : ((w * 4096 + h) / 65536 * 65536 + (w * 4096 + h) / 256 % 256 * 256 +
      (w * 4096 + h) % 256) = w * 4096 + h := by omega
  have h4095 : (4095 : Nat) = 2 ^ 12 - 1 := by norm_num
  simp only [unpack_dimensions, List.getD_cons_zero, List.getD_cons_succ]
  rw [h1, h2, hC, Nat.shiftRight_eq_div_pow, h4095, Nat.and_pow_two_sub_one_eq_mod,
    Nat.and_pow_two_sub_one_eq_mod]
  norm_num
  constructor <;> omega

/-! Facts about `position` (first matching index). -/

lemma getElem?_some_lt {α : Type} : ∀ (l : List α) (i : Nat) (a : α), l[i]? = some a → i < l.length := by
  intro l
  induction l with
  | nil => intro i a h; simp at h
  | cons x xs ih =>
    intro i a h
    cases i with
    | zero => simp
    | succ i =>
      rw [List.getElem?_cons_succ] at h
      have := ih i a h
      simp
      omega

lemma position_some {pred : Rgb → Bool} :
    ∀ {l : List Rgb} {j : Nat}, position pred l = some j →
      ∃ c, l[j]? = some c ∧ pred c = true ∧
        ∀ i ci, i < j → l[i]? = some ci → pred ci = false := by
  intro l
  induction l with
  | nil => intro j h; simp [position] at h
  | cons c cs ih =>
    intro j h
    by_cases hp : pred c
    · simp only [position, hp, if_true] at h
      cases h
      exact ⟨c, by simp, hp, fun i ci hi _ => absurd hi (by omega)⟩
    · simp only [position, hp, Bool.false_eq_true, if_false, Option.map_eq_some'] at h
      obtain ⟨j', hj', rfl⟩ := h
      obtain ⟨c', hc', hpc', hearlier⟩ := ih hj'
      refine ⟨c', by simpa using hc', hpc', ?_⟩
      intro i ci hi hget
      cases i with
      | zero =>
        rw [List.getElem?_cons_zero] at hget
        cases hget
        exact Bool.eq_false_iff.mpr hp
      | succ i =>
        rw [List.getElem?_cons_succ] at hget
        exact hearlier i ci (by omega) hget

lemma pixEq_iff (c p : Rgb) : pixEq c p = true ↔ c = p := by
  cases c; cases p
  simp [pixEq, Rgb.mk.injEq, and_assoc]

lemma position_mem {p : Rgb} :
    ∀ {l : List Rgb}, p ∈ l → ∃ j, position (fun c => pixEq c p) l = some j := by
  intro l
  induction l with
  | nil => intro h; simp at h
  | cons c cs ih =>
    intro h
    by_cases hp : pixEq c p
    · exact ⟨0, by simp [position, hp]⟩
    · have hpc : p ∈ cs := by
        rcases List.mem_cons.mp h with rfl | hmem
        · exact absurd ((pixEq_iff p p).mpr rfl) (by simpa using hp)
        · exact hmem
      obtain ⟨j, hj⟩ := ih hpc
      exact ⟨j + 1, by simp [position, hp, hj]⟩

/-! Facts about the squared-distance key. -/

lemma sqDist_nonneg (c p : Rgb) : 0 ≤ sqDist c p := by
  have h1 := mul_self_nonneg ((c.r : Int) - (p.r : Int))
  have h2 := mul_self_nonneg ((c.g : Int) - (p.g : Int))
  have h3 := mul_self_nonneg ((c.b : Int) - (p.b : Int))
  simp only [sqDist]
  linarith

lemma sqDist_self (p : Rgb) : sqDist p p = 0 := by
  simp [sqDist]

lemma sqDist_eq_zero {c p : Rgb} (h : sqDist c p = 0) : c = p := by
  have h1 := mul_self_nonneg ((c.r : Int) - (p.r : Int))
  have h2 := mul_self_nonneg ((c.g : Int) - (p.g : Int))
  have h3 := mul_self_nonneg ((c.b : Int) - (p.b : Int))
  simp only [sqDist] at h
  have e1 : ((c.r : Int) - (p.r : Int)) * ((c.r : Int) - (p.r : Int)) = 0 := by linarith
  have e2 : ((c.g : Int) - (p.g : Int)) * ((c.g : Int) - (p.g : Int)) = 0 := by linarith
  have e3 : ((c.b : Int) - (p.b : Int)) * ((c.b : Int) - (p.b : Int)) = 0 := by linarith
  have d1 := sub_eq_zero.mp (mul_self_eq_zero.mp e1)
  have d2 := sub_eq_zero.mp (mul_self_eq_zero.mp e2)
  have d3 := sub_eq_zero.mp (mul_self_eq_zero.mp e3)
  ext
  · exact_mod_cast d1
  · exact_mod_cast d2
  · exact_mod_cast d3

/-! The `min_by_key` fold keeps the first minimum. -/

lemma runMin_cons (f : Nat × Rgb → Int) (acc x : Nat × Rgb) (t : List (Nat × Rgb)) :
    runMin f acc (x :: t) = runMin f (if f x < f acc then x else acc) t := rfl

lemma runMin_spec (f : Nat × Rgb → Int) :
    ∀ (xs : List (Nat × Rgb)) (acc : Nat × Rgb),
      f (runMin f acc xs) ≤ f acc ∧
      (∀ (i : Nat) (y : Nat × Rgb), xs[i]? = some y → f (runMin f acc xs) ≤ f y) ∧
      (runMin f acc xs = acc ∨
        ∃ i : Nat, xs[i]? = some (runMin f acc xs) ∧ f (runMin f acc xs) < f acc ∧
          ∀ (j : Nat) (z : Nat × Rgb), j < i → xs[j]? = some z →
            f (runMin f acc xs) < f z) := by
  intro xs
  induction xs with
  | nil =>
    intro acc
    refine ⟨le_refl _, ?_, Or.inl rfl⟩
    intro i y h
    simp at h
  | cons x t ih =>
    intro acc
    rw [runMin_cons]
    by_cases hfx : f x < f acc
    · rw [if_pos hfx]
      obtain ⟨ih1, ih2, ih3⟩ := ih x
      refine ⟨le_trans ih1 (le_of_lt hfx), ?_, ?_⟩
      · intro i y h
        cases i with
        | zero =>
          rw [List.getElem?_cons_zero] at h
          cases h
          exact ih1
        | succ i =>
          rw [List.getElem?_cons_succ] at h
          exact ih2 i y h
      · rcases ih3 with heq | ⟨i, hi, hlt, hearly⟩
        · refine Or.inr ⟨0, by rw [List.getElem?_cons_zero, heq], by rw [heq]; exact hfx, ?_⟩
          intro j z hj
          omega
        · refine Or.inr ⟨i + 1, by rwa [List.getElem?_cons_succ], lt_trans hlt hfx, ?_⟩
          intro j z hj hget
          cases j with
          | zero =>
            rw [List.getElem?_cons_zero] at hget
            cases hget
            exact hlt
          | succ j =>
            rw [List.getElem?_cons_succ] at hget
            exact hearly j z (by omega) hget
    · rw [if_neg hfx]
      obtain ⟨ih1, ih2, ih3⟩ := ih acc
      refine ⟨ih1, ?_, ?_⟩
      · intro i y h
        cases i with
        | zero =>
          rw [List.getElem?_cons_zero] at h
          cases h
          exact le_trans ih1 (le_of_not_lt hfx)
        | succ i =>
          rw [List.getElem?_cons_succ] at h
          exact ih2 i y h
      · rcases ih3 with heq | ⟨i, hi, hlt, hearly⟩
        · exact Or.inl heq
        · refine Or.inr ⟨i + 1, by rwa [List.getElem?_cons_succ], hlt, ?_⟩
          intro j z hj hget
          cases j with
          | zero =>
            rw [List.getElem?_cons_zero] at hget
            cases hget
            exact lt_of_lt_of_le hlt (le_of_not_lt hfx)
          | succ j =>
            rw [List.getElem?_cons_succ] at hget
            exact hearly j z (by omega) hget

lemma enumFrom_getElem? {α : Type} :
    ∀ (l : List α) (n i : Nat), (List.enumFrom n l)[i]? = l[i]?.map (fun a => (n + i, a)) := by
  intro l
  induction l with
  | nil => intro n i; simp [List.enumFrom]
  | cons x xs ih =>
    intro n i
    cases i with
    | zero => simp [List.enumFrom]
    | succ i =>
      simp only [List.enumFrom, List.getElem?_cons_succ, ih xs.length.succ]
      rw [ih]
      have : n + 1 + i = n + (i + 1) := by omega
      rw [this]

lemma index_of_cons (c : Rgb) (cs : List Rgb) (color : Rgb) :
    index_of (c :: cs) color =
      (runMin (fun ic => sqDist ic.2 color) (0, c) (List.enumFrom 1 cs)).1 := rfl


lemma index_of_spec_aux (colors : List Rgb) (color : Rgb) (hne : colors ≠ []) :
    ∃ cm, colors[index_of colors color]? = some cm ∧
      (∀ (k : Nat) (ck : Rgb), colors[k]? = some ck → sqDist cm color ≤ sqDist ck color) ∧
      (∀ (k : Nat) (ck : Rgb), colors[k]? = some ck →
        sqDist ck color ≤ sqDist cm color → index_of colors color ≤ k) := by
  match colors with
  | [] => exact absurd rfl hne
  | c :: cs =>
    rw [index_of_cons]
    obtain ⟨h1, h2, h3⟩ := runMin_spec (fun ic => sqDist ic.2 color) (List.enumFrom 1 cs) (0, c)
    rcases h3 with heq | ⟨i, hi, hlt, hearly⟩
    · rw [heq] at h1 h2 ⊢
      refine ⟨c, by simp, ?_, ?_⟩
      · intro k ck hk
        cases k with
        | zero =>
          rw [List.getElem?_cons_zero] at hk
          cases hk
          exact le_refl _
        | succ k =>
          rw [List.getElem?_cons_succ] at hk
          have henum : (List.enumFrom 1 cs)[k]? = some (1 + k, ck) := by
            rw [enumFrom_getElem?, hk, Option.map_some']
          exact h2 k (1 + k, ck) henum
      · intro k ck hk hle
        simp
    · have hma : ∃ a, cs[i]? = some a ∧
          runMin (fun ic => sqDist ic.2 color) (0, c) (List.enumFrom 1 cs) = (1 + i, a) := by
        rw [enumFrom_getElem?] at hi
        rcases hget : cs[i]? with _ | a
        · rw [hget] at hi
          simp at hi
        · rw [hget] at hi
          simp only [Option.map_some'] at hi
          exact ⟨a, rfl, (Option.some.inj hi).symm⟩
      obtain ⟨a, hget, hma⟩ := hma
      rw [hma] at h1 h2 hlt hearly ⊢
      have hidx : (c :: cs)[(1 + i, a).1]? = some a := by
        have h1i : 1 + i = i + 1 := by omega
        simp only [h1i, List.getElem?_cons_succ]
        exact hget
      refine ⟨a, hidx, ?_, ?_⟩
      · intro k ck hk
        cases k with
        | zero =>
          rw [List.getElem?_cons_zero] at hk
          cases hk
          exact h1
        | succ k =>
          rw [List.getElem?_cons_succ] at hk
          have henum : (List.enumFrom 1 cs)[k]? = some (1 + k, ck) := by
            rw [enumFrom_getElem?, hk, Option.map_some']
          exact h2 k (1 + k, ck) henum
      · intro k ck hk hle
        by_contra hcon
        have hki : k < 1 + i := by
          simp at hcon
          omega
        cases k with
        | zero =>
          rw [List.getElem?_cons_zero] at hk
          cases hk
          exact absurd hle (not_le.mpr hlt)
        | succ k =>
          rw [List.getElem?_cons_succ] at hk
          have henum : (List.enumFrom 1 cs)[k]? = some (1 + k, ck) := by
            rw [enumFrom_getElem?, hk, Option.map_some']
          exact absurd hle (not_le.mpr (hearly k (1 + k, ck) (by omega) henum))

lemma index_of_of_position {palette : List Rgb} {p : Rgb} {j : Nat}
    (hpos : position (fun c => pixEq c p) palette = some j) :
    index_of palette p = j := by
  have hne : palette ≠ [] := by
    intro e
    rw [e] at hpos
    simp [position] at hpos
  obtain ⟨cm, hcm, hmin, hleast⟩ := index_of_spec_aux palette p hne
  obtain ⟨c, hc, hpredc, hearlier⟩ := position_some hpos
  have hcp : c = p := (pixEq_iff c p).mp hpredc
  rw [hcp] at hc
  have h0 : sqDist cm p ≤ 0 := by
    have hj := hmin j p hc
    rwa [sqDist_self] at hj
  have hcmp : cm = p := sqDist_eq_zero (le_antisymm h0 (sqDist_nonneg cm p))
  rw [hcmp] at hcm hleast
  have le1 : index_of palette p ≤ j := hleast j p hc (le_refl _)
  have le2 : j ≤ index_of palette p := by
    by_contra hcon
    have hfalse := hearlier (index_of palette p) p (by omega) hcm
    rw [(pixEq_iff p p).mpr rfl] at hfalse
    exact Bool.noConfusion hfalse
  omega

/-! Facts about `mapOpt`, the quantizer loop and the container shape. -/

lemma mapOpt_length {α β : Type} (f : α → Option β) :
    ∀ {xs : List α} {ys : List β}, mapOpt f xs = some ys → ys.length = xs.length := by
  intro xs
  induction xs with
  | nil =>
    intro ys h
    simp only [mapOpt] at h
    cases h
    rfl
  | cons x t ih =>
    intro ys h
    simp only [mapOpt] at h
    rcases hfx : f x with _ | y <;> rw [hfx] at h
    · exact absurd h (by simp)
    · rcases hrec : mapOpt f t with _ | ys' <;> rw [hrec] at h
      · exact absurd h (by simp)
      · cases h
        simp [ih hrec]

lemma mapOpt_total {α β : Type} (f : α → Option β) (g : α → β) (hf : ∀ a, f a = some (g a)) :
    ∀ l : List α, mapOpt f l = some (l.map g) := by
  intro l
  induction l with
  | nil => rfl
  | cons x t ih => simp [mapOpt, hf x, ih]

lemma swapRemoveAt_length (l : List (List Rgb)) (i : Nat) :
    (swapRemoveAt l i).length = l.length - 1 := by
  simp [swapRemoveAt]

lemma genLoop_length {n : Nat} :
    ∀ (fuel : Nat) (bs : List (List Rgb)), bs.length ≤ n → (genLoop n fuel bs).length ≤ n := by
  intro fuel
  induction fuel with
  | zero =>
    intro bs h
    simpa [genLoop] using h
  | succ fuel ih =>
    intro bs h
    by_cases hlt : bs.length < n
    · rcases hsel : selectMaxVariance bs with _ | idx
      · simpa [genLoop, hlt, hsel] using h
      · have hbs : bs ≠ [] := by
          intro e
          rw [e] at hsel
          simp [selectMaxVariance, maxByLast, List.enum, List.enumFrom] at hsel
        have hpos : 1 ≤ bs.length := by
          cases bs
          · exact absurd rfl hbs
          · simp
        by_cases hb : (bs.getD idx []).length ≤ 1
        · simp only [genLoop, if_pos hlt, hsel, if_pos hb]
          rw [List.length_append, swapRemoveAt_length]
          simp
          omega
        · simp only [genLoop, if_pos hlt, hsel, if_neg hb]
          apply ih
          rw [List.length_append, swapRemoveAt_length]
          simp
          omega
    · simpa [genLoop, hlt] using h

lemma genLoop_single (p : Rgb) (n fuel : Nat) (h2 : 2 ≤ n) :
    genLoop n (fuel + 1) [[p]] = [[p]] := by
  have h1 : ([[p]] : List (List Rgb)).length < n := by
    simp
    omega
  simp [genLoop, h1, selectMaxVariance, maxByLast, List.enum, List.enumFrom, runMin,
    swapRemoveAt]

lemma genLoop_single_all (p : Rgb) (m : Nat) : genLoop m m [[p]] = [[p]] := by
  match m with
  | 0 => rfl
  | 1 =>
    simp [genLoop]
  | k + 2 => exact genLoop_single p (k + 2) (k + 1) (by omega)

lemma flatten_map_toBytes_length :
    ∀ l : List Rgb, ((l.map toBytes).flatten).length = 3 * l.length := by
  intro l
  induction l with
  | nil => rfl
  | cons x t ih =>
    simp only [List.map_cons, List.flatten_cons, List.length_append, ih, toBytes,
      List.length_cons]
    simp
    omega

lemma do_encode_false (cpus : Nat) (dither : List Rgb → List Rgb → List Rgb) (codec : Codec)
    (width height : Nat) (pixels : List Rgb) (palette_size : Nat) :
    do_encode cpus dither codec width height pixels palette_size false =
      encode_core cpus dither width height pixels palette_size := by
  rcases h : encode_core cpus dither width height pixels palette_size with _ | out <;>
    simp [do_encode, h]

lemma encode_core_some {cpus : Nat} {dither : List Rgb → List Rgb → List Rgb}
    {width height : Nat} {pixels : List Rgb} {palette_size : Nat} {out : List Nat}
    (h : encode_core cpus dither width height pixels palette_size = some out) :
    (2 ≤ width ∧ width ≤ 4097) ∧ (2 ≤ height ∧ height ≤ 4097) ∧
    ∃ palette chunks, gen_palette pixels palette_size = some palette ∧
      splitChunks cpus (dither palette pixels) = some chunks ∧
      out = pack_dimensions (width - 2) (height - 2) ++
        ((palette_size - 2) % 256) ::
          ((palette.map toBytes).flatten ++ (chunks.map (process_encode palette)).flatten) := by
  by_cases h1 : 2 ≤ width ∧ width ≤ 4097
  · by_cases h2 : 2 ≤ height ∧ height ≤ 4097
    · rcases hpal : gen_palette pixels palette_size with _ | palette
      · simp only [encode_core, if_pos h1, if_pos h2, hpal] at h
        exact Option.noConfusion h
      · rcases hchunks : splitChunks cpus (dither palette pixels) with _ | chunks
        · simp only [encode_core, if_pos h1, if_pos h2, hpal, hchunks] at h
          exact Option.noConfusion h
        · simp only [encode_core, if_pos h1, if_pos h2, hpal, hchunks,
            Option.some.injEq] at h
          exact ⟨h1, h2, palette, chunks, rfl, hchunks, h.symm⟩
    · rw [encode_core, if_pos h1, if_neg h2] at h
      exact absurd h (by simp)
  · rw [encode_core, if_neg h1] at h
    exact absurd h (by simp)

lemma get_info_encode {cpus : Nat} {dither : List Rgb → List Rgb → List Rgb} {codec : Codec}
    {width height : Nat} {pixels : List Rgb} {palette_size : Nat} {out : List Nat}
    (hN2 : 2 ≤ palette_size) (hN : palette_size ≤ 257)
    (h : do_encode cpus dither codec width height pixels palette_size false = some out) :
    get_info out = some (width, height, palette_size) ∧
    out[3]? = some (palette_size - 2) ∧
    unpack_dimensions (out.take 3) = (width - 2, height - 2) := by
  rw [do_encode_false] at h
  obtain ⟨⟨hw2, hw⟩, ⟨hh2, hh⟩, palette, chunks, hpal, hchunks, hout⟩ := encode_core_some h
  have hmod : (palette_size - 2) % 256 = palette_size - 2 := Nat.mod_eq_of_lt (by omega)
  obtain ⟨x, y, z, hp⟩ : ∃ x y z, pack_dimensions (width - 2) (height - 2) = [x, y, z] :=
    ⟨_, _, _, rfl⟩
  have hout' : out = x :: y :: z :: (palette_size - 2) ::
      ((palette.map toBytes).flatten ++ (chunks.map (process_encode palette)).flatten) := by
    rw [hout, hp, hmod]
    rfl
  have htake : out.take 3 = pack_dimensions (width - 2) (height - 2) := by
    rw [hout', hp]
    rfl
  have hunp : unpack_dimensions (out.take 3) = (width - 2, height - 2) := by
    rw [htake]
    exact unpack_dimensions_pack _ _ (by omega) (by omega)
  refine ⟨?_, ?_, hunp⟩
  · have hlen : 4 ≤ out.length := by
      rw [hout']
      simp
    simp only [get_info, if_pos hlen, hunp]
    rw [hout']
    simp only [List.getD_cons_succ, List.getD_cons_zero, Option.some.injEq]
    have e1 : width - 2 + 2 = width := by omega
    have e2 : height - 2 + 2 = height := by omega
    have e3 : palette_size - 2 + 2 = palette_size := by omega
    rw [e1, e2, e3]
  · rw [hout']
    simp [List.getElem?_cons_succ, List.getElem?_cons_zero]

lemma getD_indep {l : List Rgb} {n : Nat} (h : n < l.length) (d d' : Rgb) :
    l.getD n d = l.getD n d' := by
  induction l generalizing n with
  | nil => simp at h
  | cons x t ih =>
    cases n with
    | zero => rfl
    | succ n =>
      simp only [List.getD_cons_succ]
      exact ih (by simpa using h)

/-! Claim theorems. -/

/-- C1: the encode/decode round-trip breaks on the code.  For the 2-by-2
image `pix4` of four distinct colours and requested palette size 5 the
quantizer stops early at 4 entries, yet `do_encode` writes the requested
size into byte 3; `do_decode` then consumes three index bytes as palette
data, comes up short on pixel data, and the `from_raw` expect fails
(`none`), instead of reproducing the 2-by-2 dithered image. -/
theorem roundtrip_breaks_on_short_palette :
    do_encode 1 ditherModel zstdModel 2 2 pix4 5 false = some c20 ∧
    do_decode 1 zstdModel c20 false = none := by
  constructor
  · decide
  · decide

/-- C2 counterexample: the encode worker does not perform a nearest-colour
lookup.  For the pixel `(9,9,9)` and the palette `[(0,0,0),(10,10,10)]` the
entry at index 1 is strictly closer in squared Euclidean distance, yet the
worker emits index 0 (its exact-match search found nothing and fell back to
`unwrap_or(0)`). -/
theorem process_encode_not_nearest :
    process_encode [⟨0, 0, 0⟩, ⟨10, 10, 10⟩] [⟨9, 9, 9⟩] = [0] ∧
    sqDist ⟨10, 10, 10⟩ ⟨9, 9, 9⟩ < sqDist ⟨0, 0, 0⟩ ⟨9, 9, 9⟩ := by
  constructor
  · decide
  · decide

/-- C2 (amended): an encode worker maps each pixel to the index of the
first palette entry exactly equal to it (0 if none matches).  Whenever every
chunk pixel occurs in the palette — which dithering guarantees — and the
palette has at most 256 entries (so the `as u8` cast does not truncate),
this coincides with the nearest-index map, because an exact match is the
unique distance-0 minimiser and ties break at the lowest index in both
searches. -/
theorem process_encode_exact_match (palette chunk : List Rgb)
    (hmem : ∀ p, p ∈ chunk → p ∈ palette) (hlen : palette.length ≤ 256) :
    process_encode palette chunk = chunk.map (fun p => index_of palette p) := by
  unfold process_encode
  apply List.map_congr_left
  intro p hp
  obtain ⟨j, hj⟩ := position_mem (hmem p hp)
  have hidx := index_of_of_position hj
  obtain ⟨c, hc, -, -⟩ := position_some hj
  have hjlt : j < palette.length := getElem?_some_lt palette j c hc
  rw [hj, hidx]
  simp only [Option.getD_some]
  exact Nat.mod_eq_of_lt (by omega)

/-- C2 witness: the amended statement applied to a concrete palette and
chunk. -/
theorem process_encode_exact_match_witness :
    process_encode pal2 [⟨10, 10, 10⟩, ⟨0, 0, 0⟩] =
      [⟨10, 10, 10⟩, ⟨0, 0, 0⟩].map (fun p => index_of pal2 p) :=
  process_encode_exact_match pal2 [⟨10, 10, 10⟩, ⟨0, 0, 0⟩] (by decide) (by decide)

/-- C3 counterexample: encoding `pix4` with the compression flag stores the
raw container (zstd framing makes the compressed form larger), and decoding
that stored-uncompressed payload *with* the compression flag fails — the
decompression step runs unconditionally and rejects the payload — contrary
to the claim that it must still succeed. -/
theorem decode_compress_flag_fails :
    do_encode 1 ditherModel zstdModel 2 2 pix4 2 true =
      do_encode 1 ditherModel zstdModel 2 2 pix4 2 false ∧
    do_decode 1 zstdModel ((do_encode 1 ditherModel zstdModel 2 2 pix4 2 true).getD []) true =
      none := by
  constructor
  · decide
  · decide

/-- C3 (amended): when compression does not strictly shrink the container,
encode with the compression flag returns the uncompressed container
byte-for-byte; a subsequent decode call with the compression flag set on
that stored-uncompressed payload fails whenever the payload is not itself a
valid compressed stream (decode applies the inverse transform
unconditionally), so succeeding requires decoding without the flag. -/
theorem compression_fallback_stores_raw
    (cpus : Nat) (dither : List Rgb → List Rgb → List Rgb) (codec : Codec)
    (width height palette_size : Nat) (pixels : List Rgb) (c : List Nat)
    (h1 : do_encode cpus dither codec width height pixels palette_size false = some c)
    (h2 : c.length ≤ (codec.compress c).length) :
    do_encode cpus dither codec width height pixels palette_size true = some c ∧
    (codec.decompress c = none → do_decode cpus codec c true = none) := by
  constructor
  · rw [do_encode_false] at h1
    rw [do_encode, h1, Option.map_some']
    simp only [if_true, Option.some.injEq]
    rw [if_neg (not_lt.mpr h2)]
  · intro h3
    simp only [do_decode, if_true, h3]

/-- C3 witness: the fallback applied to the concrete container `c14`, whose
zstd-framed compression is 4 bytes longer and which is not a valid
compressed stream. -/
theorem compression_fallback_stores_raw_witness :
    do_encode 1 ditherModel zstdModel 2 2 pix4 2 true = some c14 ∧
    (zstdModel.decompress c14 = none → do_decode 1 zstdModel c14 true = none) :=
  compression_fallback_stores_raw 1 ditherModel zstdModel 2 2 2 pix4 c14
    (by decide) (by decide)

/-- C4: every successful uncompressed encode writes `palette_size - 2`
(the caller-requested size) into byte 3 of the container, while the palette
region written after it holds exactly `3 * (actual entries)` bytes of the
palette `gen_palette` returned; and there is an input (`pix4` with requested
size 5) on which `gen_palette` returns only 4 entries, so the byte
overclaims the region. -/
theorem palette_size_byte_overclaims :
    (∀ (cpus : Nat) (dither : List Rgb → List Rgb → List Rgb) (codec : Codec)
      (width height : Nat) (pixels : List Rgb) (palette_size : Nat) (out : List Nat),
      palette_size ≤ 257 →
      do_encode cpus dither codec width height pixels palette_size false = some out →
      ∃ palette rest, gen_palette pixels palette_size = some palette ∧
        out[3]? = some (palette_size - 2) ∧
        out = pack_dimensions (width - 2) (height - 2) ++
          (palette_size - 2) :: ((palette.map toBytes).flatten ++ rest) ∧
        ((palette.map toBytes).flatten).length = 3 * palette.length) ∧
    (∃ pixels palette, gen_palette pixels 5 = some palette ∧ palette.length < 5) := by
  constructor
  · intro cpus dither codec width height pixels palette_size out hN h
    rw [do_encode_false] at h
    obtain ⟨-, -, palette, chunks, hpal, -, hout⟩ := encode_core_some h
    have hmod : (palette_size - 2) % 256 = palette_size - 2 := Nat.mod_eq_of_lt (by omega)
    rw [hmod] at hout
    refine ⟨palette, (chunks.map (process_encode palette)).flatten, hpal, ?_, hout,
      flatten_map_toBytes_length palette⟩
    obtain ⟨x, y, z, hp⟩ : ∃ x y z, pack_dimensions (width - 2) (height - 2) = [x, y, z] :=
      ⟨_, _, _, rfl⟩
    rw [hout, hp]
    simp [List.getElem?_cons_succ, List.getElem?_cons_zero]
  · exact ⟨pix4, [⟨250, 250, 250⟩, ⟨20, 20, 20⟩, ⟨0, 0, 0⟩, ⟨10, 10, 10⟩], by decide, by decide⟩

/-- C4 witness: the general statement applied to the concrete encode of
`pix4` with requested palette size 5, which produced container `c20`. -/
theorem palette_size_byte_overclaims_witness :
    ∃ palette rest, gen_palette pix4 5 = some palette ∧
      c20[3]? = some (5 - 2) ∧
      c20 = pack_dimensions (2 - 2) (2 - 2) ++
        (5 - 2) :: ((palette.map toBytes).flatten ++ rest) ∧
      ((palette.map toBytes).flatten).length = 3 * palette.length :=
  palette_size_byte_overclaims.1 1 ditherModel zstdModel 2 2 pix4 5 c20
    (by decide) (by decide)

/-- C5: for all `w, h` in `[0, 4095]`, `pack_dimensions` yields the three
bytes of the big-endian 24-bit integer `w * 2^12 + h` (bits 23..12 = `w`,
bits 11..0 = `h`, each byte below 256), `unpack_dimensions` inverts it; and
on every successful uncompressed encode, `get_info` returns the encoder's
width, height and palette size (stored off by 2) while container byte 3 is
`palette_size - 2`, i.e. the decoded palette size minus 2. -/
theorem header_roundtrip_inspect :
    (∀ w h : Nat, w < 4096 → h < 4096 →
      pack_dimensions w h =
        [(w * 4096 + h) / 65536, (w * 4096 + h) / 256 % 256, (w * 4096 + h) % 256] ∧
      (∀ b ∈ pack_dimensions w h, b < 256) ∧
      unpack_dimensions (pack_dimensions w h) = (w, h)) ∧
    (∀ (cpus : Nat) (dither : List Rgb → List Rgb → List Rgb) (codec : Codec)
      (width height : Nat) (pixels : List Rgb) (palette_size : Nat) (out : List Nat),
      2 ≤ palette_size → palette_size ≤ 257 →
      do_encode cpus dither codec width height pixels palette_size false = some out →
      get_info out = some (width, height, palette_size) ∧
      out[3]? = some (palette_size - 2)) := by
  constructor
  · intro w h hw hh
    exact ⟨pack_dimensions_eq w h hw hh, pack_dimensions_bytes_lt w h hw hh,
      unpack_dimensions_pack w h hw hh⟩
  · intro cpus dither codec width height pixels palette_size out hN2 hN h
    obtain ⟨hg, hb3, -⟩ := get_info_encode hN2 hN h
    exact ⟨hg, hb3⟩

/-- C5 witness: the bit-layout facts at the boundary value 4095 and the
inspect facts on the concrete container `c14`. -/
theorem header_roundtrip_inspect_witness :
    (pack_dimensions 4095 4095 =
      [(4095 * 4096 + 4095) / 65536, (4095 * 4096 + 4095) / 256 % 256,
        (4095 * 4096 + 4095) % 256] ∧
      (∀ b ∈ pack_dimensions 4095 4095, b < 256) ∧
      unpack_dimensions (pack_dimensions 4095 4095) = (4095, 4095)) ∧
    (get_info c14 = some (2, 2, 2) ∧ c14[3]? = some (2 - 2)) :=
  ⟨header_roundtrip_inspect.1 4095 4095 (by decide) (by decide),
   header_roundtrip_inspect.2 1 ditherModel zstdModel 2 2 pix4 2 c14 (by decide) (by decide)
     (by decide)⟩

/-- C6: the chunk partitioning panics rather than producing chunks on
inputs the claim calls valid.  For a 10-element input (a legal 2-by-5
image) and 8 workers the chunk size is `ceil(10/8) = 2` and worker 6's
start index `12` exceeds the input length, so the range slice panics
(`none`); a worker count of 0 panics in `div_ceil` (division by zero) even
on empty input; 5 elements with 4 workers panic likewise.  No chunk list —
and hence no concatenated map — is produced. -/
theorem chunk_partition_panics :
    splitChunks 8 (List.range 10) = (none : Option (List (List Nat))) ∧
    splitChunks 0 ([] : List Nat) = none ∧
    splitChunks 4 (List.range 5) = (none : Option (List (List Nat))) := by
  refine ⟨by decide, by decide, by decide⟩

/-- C7: encode rejects out-of-range dimensions and palette sizes before
producing any output (`none`), and on every accepted input the packed
header reproduces width, height and palette size exactly — in particular
nothing is silently truncated into the 12-bit and 8-bit fields. -/
theorem encode_precondition_rejection :
    (∀ (cpus : Nat) (dither : List Rgb → List Rgb → List Rgb) (codec : Codec)
      (width height : Nat) (pixels : List Rgb) (palette_size : Nat) (compress : Bool),
      (¬(2 ≤ width ∧ width ≤ 4097) ∨ ¬(2 ≤ height ∧ height ≤ 4097) ∨
        ¬(2 ≤ palette_size ∧ palette_size ≤ 257)) →
      encode_cli cpus dither codec width height pixels palette_size compress = none) ∧
    (∀ (cpus : Nat) (dither : List Rgb → List Rgb → List Rgb) (codec : Codec)
      (width height : Nat) (pixels : List Rgb) (palette_size : Nat) (out : List Nat),
      encode_cli cpus dither codec width height pixels palette_size false = some out →
      (2 ≤ width ∧ width ≤ 4097) ∧ (2 ≤ height ∧ height ≤ 4097) ∧
      (2 ≤ palette_size ∧ palette_size ≤ 257) ∧
      unpack_dimensions (out.take 3) = (width - 2, height - 2) ∧
      out[3]? = some (palette_size - 2)) := by
  constructor
  · intro cpus dither codec width height pixels palette_size compress hbad
    by_cases hN : 2 ≤ palette_size ∧ palette_size ≤ 257
    · rw [encode_cli, if_pos hN]
      rcases hbad with hw | hh | hN'
      · simp [do_encode, encode_core, hw]
      · simp [do_encode, encode_core, hh]
      · exact absurd hN hN'
    · rw [encode_cli, if_neg hN]
  · intro cpus dither codec width height pixels palette_size out h
    have hN : 2 ≤ palette_size ∧ palette_size ≤ 257 := by
      by_contra hN
      rw [encode_cli, if_neg hN] at h
      exact Option.noConfusion h
    rw [encode_cli, if_pos hN] at h
    obtain ⟨-, hb3, hunp⟩ := get_info_encode hN.1 hN.2 h
    have hcore := encode_core_some (by rwa [do_encode_false] at h)
    exact ⟨hcore.1, hcore.2.1, hN, hunp, hb3⟩

/-- C7 witness: width 4098 and palette size 258 are rejected with no
output, while the accepted concrete boundary-shaped input round-trips its
header through the packed fields. -/
theorem encode_precondition_rejection_witness :
    encode_cli 1 ditherModel zstdModel 4098 2 pix4 2 false = none ∧
    encode_cli 1 ditherModel zstdModel 2 2 pix4 258 false = none ∧
    ((2 ≤ 2 ∧ 2 ≤ 4097) ∧ (2 ≤ 2 ∧ 2 ≤ 4097) ∧ (2 ≤ 2 ∧ 2 ≤ 257) ∧
      unpack_dimensions (c14.take 3) = (2 - 2, 2 - 2) ∧ c14[3]? = some (2 - 2)) :=
  ⟨encode_precondition_rejection.1 1 ditherModel zstdModel 4098 2 pix4 2 false
      (Or.inl (by decide)),
   encode_precondition_rejection.1 1 ditherModel zstdModel 2 2 pix4 258 false
      (Or.inr (Or.inr (by decide))),
   encode_precondition_rejection.2 1 ditherModel zstdModel 2 2 pix4 2 c14 (by decide)⟩

/-- C8: the splitting loop never returns more buckets than requested (for
any requested size `n ≥ 1` a palette `gen_palette` returns has at most `n`
entries — the early stop on a `≤ 1`-pixel bucket only makes it smaller),
and a single-pixel input yields a palette of exactly one entry regardless
of the requested size. -/
theorem gen_palette_early_stop :
    (∀ (pixels : List Rgb) (n : Nat) (pal : List Rgb), 1 ≤ n →
      gen_palette pixels n = some pal → pal.length ≤ n) ∧
    (∀ (p : Rgb) (m : Nat), ∃ pal, gen_palette [p] m = some pal ∧ pal.length = 1) := by
  constructor
  · intro pixels n pal hn hpal
    have hlen := mapOpt_length average_color hpal
    have hloop := genLoop_length (n := n) n [pixels] (by simpa using hn)
    omega
  · intro p m
    rw [gen_palette, genLoop_single_all]
    exact ⟨_, rfl, rfl⟩

/-- C8 witness: the bound applied to the concrete quantization of `pix4`
to 2 colours, and the single-pixel degeneration at requested size 100. -/
theorem gen_palette_early_stop_witness :
    ([Rgb.mk 5 5 5, Rgb.mk 135 135 135] : List Rgb).length ≤ 2 ∧
    (∃ pal, gen_palette [Rgb.mk 7 7 7] 100 = some pal ∧ pal.length = 1) :=
  ⟨gen_palette_early_stop.1 pix4 2 [Rgb.mk 5 5 5, Rgb.mk 135 135 135] (by decide) (by decide),
   gen_palette_early_stop.2 ⟨7, 7, 7⟩ 100⟩

/-- C9 counterexample: called with an empty palette, `index_of` does not
fail fast — the `unwrap_or(0)` fallback returns the index 0 as a result. -/
theorem index_of_empty_returns_zero : index_of [] ⟨3, 4, 5⟩ = 0 := rfl

/-- C9 (amended): on a nonempty palette `index_of` returns the smallest
index whose entry minimises the squared Euclidean distance to the colour
(ties go to the first-encountered entry); on an empty palette it returns 0
instead of failing. -/
theorem index_of_first_min (colors : List Rgb) (color : Rgb) :
    (colors = [] → index_of colors color = 0) ∧
    (colors ≠ [] →
      ∃ cm, colors[index_of colors color]? = some cm ∧
        (∀ (k : Nat) (ck : Rgb), colors[k]? = some ck → sqDist cm color ≤ sqDist ck color) ∧
        (∀ (k : Nat) (ck : Rgb), colors[k]? = some ck →
          sqDist ck color ≤ sqDist cm color → index_of colors color ≤ k)) :=
  ⟨fun h => by rw [h]; rfl, index_of_spec_aux colors color⟩

/-- C9 witness: the nearest-first-index property at a concrete palette and
colour. -/
theorem index_of_first_min_witness :
    ∃ cm, pal2[index_of pal2 ⟨9, 9, 9⟩]? = some cm ∧
      (∀ (k : Nat) (ck : Rgb), pal2[k]? = some ck →
        sqDist cm ⟨9, 9, 9⟩ ≤ sqDist ck ⟨9, 9, 9⟩) ∧
      (∀ (k : Nat) (ck : Rgb), pal2[k]? = some ck →
        sqDist ck ⟨9, 9, 9⟩ ≤ sqDist cm ⟨9, 9, 9⟩ → index_of pal2 ⟨9, 9, 9⟩ ≤ k) :=
  (index_of_first_min pal2 ⟨9, 9, 9⟩).2 (by decide)

/-- C10: for a palette of at least 2 entries the decode worker never fails:
every index byte `b` expands to the three channel bytes of `palette[b]`
when `b` is in range and to those of `palette[0]` otherwise. -/
theorem process_decode_index_fallback (palette : List Rgb) (chunk : List Nat)
    (h2 : 2 ≤ palette.length) :
    process_decode palette chunk =
      some ((chunk.map (fun b =>
        if b < palette.length then toBytes (palette.getD b ⟨0, 0, 0⟩)
        else toBytes (palette.getD 0 ⟨0, 0, 0⟩))).flatten) := by
  match palette with
  | [] => simp at h2
  | p0 :: rest =>
    have hlook : ∀ b : Nat, lookupPixel (p0 :: rest) b =
        some (if b < (p0 :: rest).length then toBytes ((p0 :: rest).getD b ⟨0, 0, 0⟩)
              else toBytes ((p0 :: rest).getD 0 ⟨0, 0, 0⟩)) := by
      intro b
      simp only [lookupPixel]
      congr 1
      by_cases hb : b < (p0 :: rest).length
      · rw [if_pos hb]
        exact congrArg toBytes (getD_indep hb p0 ⟨0, 0, 0⟩)
      · rw [if_neg hb]
        have hout : (p0 :: rest).getD b p0 = p0 := by
          have hnone : (p0 :: rest)[b]? = none := List.getElem?_eq_none (by omega)
          rw [List.getD_eq_getElem?_getD, hnone]
          rfl
        rw [hout]
        rfl
    rw [process_decode, mapOpt_total _ _ hlook chunk, Option.map_some']

/-- C10 witness: the lookup-with-fallback behaviour at a concrete palette,
with one in-range index repeated and one malformed index (5 ≥ 2) falling
back to entry 0. -/
theorem process_decode_index_fallback_witness :
    process_decode [⟨1, 2, 3⟩, ⟨4, 5, 6⟩] [0, 1, 5] =
      some (([0, 1, 5].map (fun b =>
        if b < ([⟨1, 2, 3⟩, ⟨4, 5, 6⟩] : List Rgb).length
        then toBytes (([⟨1, 2, 3⟩, ⟨4, 5, 6⟩] : List Rgb).getD b ⟨0, 0, 0⟩)
        else toBytes (([⟨1, 2, 3⟩, ⟨4, 5, 6⟩] : List Rgb).getD 0 ⟨0, 0, 0⟩))).flatten) :=
  process_decode_index_fallback [⟨1, 2, 3⟩, ⟨4, 5, 6⟩] [0, 1, 5] (by decide)
